import Mathlib

/-!
# Shallow embedding of QuizGame.cpp

This file embeds the quiz program `src/QuizGame.cpp` in Lean 4 and proves
properties of the embedding.

Modelling conventions:
* C++ `int` values that the program keeps small (scores, seconds, epoch
  times) are modelled as `Int`; counters that are only incremented are `Nat`.
* `std::string` is modelled as `String`, except in the high-score file
  model where byte-level parsing matters and strings are `List Char`.
* The process-wide `rand()` source is modelled as an explicit stream of
  natural numbers (`List Nat`), consumed in call order; each consumed value
  is reduced mod the C++ modulus at its call site.
* Wall-clock `time(NULL)` reads are modelled as explicit `Int` parameters
  of the events that read them.
* Console output has no state effect and is not modelled; file writes of
  the progress snapshot are modelled at field granularity (`SaveFile`).
-/

set_option autoImplicit false

namespace QuizGame

/-- `DEFAULT_TIME_PER_QUESTION` (QuizGame.cpp line 31). -/
def DEFAULT_TIME_PER_QUESTION : Int := 10

/-- `EXTRA_TIME_AMOUNT` (QuizGame.cpp line 32). -/
def EXTRA_TIME_AMOUNT : Int := 10

/-- `struct Question` (QuizGame.cpp lines 34-40).  The four-element C++
array `options[MAX_OPTIONS]` is a `List String` (length 4 in every state
the program builds). -/
structure Question where
  text : String
  options : List String
  correctIndex : Nat
  originalCorrectIndex : Nat
  difficulty : Nat
deriving Repr, DecidableEq, Inhabited

/-- The running tallies of `startQuiz`: the locals
`score, correctCount, wrongCount, streak` (QuizGame.cpp line 324). -/
structure Tally where
  score : Int
  correct : Nat
  wrong : Nat
  streak : Nat
deriving Repr, DecidableEq, Inhabited

/-- The per-difficulty deduction applied on a wrong answer or timeout
(QuizGame.cpp lines 490 and 559: `d==1 ? 2 : d==2 ? 3 : 5`). -/
def penalty (d : Nat) : Int := if d = 1 then 2 else if d = 2 then 3 else 5

/-- The per-difficulty award for a correct answer
(QuizGame.cpp line 550: `d==1 ? 10 : d==2 ? 15 : 20`). -/
def reward (d : Nat) : Int := if d = 1 then 10 else if d = 2 then 15 else 20

/-- The post-question evaluation block (QuizGame.cpp lines 528-561).
`ans` is `result.answers[result.qCount]`: `0` for a skipped or timed-out
question (for which the block does nothing; the timeout deduction was
already applied inside the polling loop), `1..4` for an answered one. -/
def evalAnswer (q : Question) (ans : Nat) (t : Tally) : Tally :=
  if ans = 0 then t
  else if ans - 1 = q.correctIndex then
    let t1 : Tally :=
      { t with score := t.score + reward q.difficulty,
               correct := t.correct + 1,
               streak := t.streak + 1 }
    if t1.streak = 3 then { t1 with score := t1.score + 5 }
    else if t1.streak = 5 then { t1 with score := t1.score + 15 }
    else t1
  else
    { t with score := t.score - penalty q.difficulty,
             wrong := t.wrong + 1,
             streak := 0 }

/-- The tally update performed inside the polling loop when the timer
expires (QuizGame.cpp lines 489-490):
`wrongCount++; streak = 0; score -= penalty`. -/
def timeoutTally (d : Nat) (t : Tally) : Tally :=
  { t with score := t.score - penalty d, wrong := t.wrong + 1, streak := 0 }

/-- One swap `tmp = arr[i]; arr[i] = arr[j]; arr[j] = tmp` on a list
(QuizGame.cpp line 118). -/
def listSwap (l : List Nat) (i j : Nat) : List Nat :=
  (l.set i (l.getD j 0)).set j (l.getD i 0)

/-- The loop body of `shuffleIntArray` (QuizGame.cpp lines 115-120),
running `for (int i = n-1; i > 0; --i) swap(arr[i], arr[rand() % (i+1)])`.
The first argument is the current loop counter `i`; `rs` supplies the
successive `rand()` values. -/
def fyAux (l : List Nat) : Nat → List Nat → List Nat
  | 0, _ => l
  | i + 1, rs => fyAux (listSwap l (i + 1) (rs.headD 0 % (i + 2))) i rs.tail

/-- `shuffleIntArray` (QuizGame.cpp lines 115-120), Fisher-Yates driven by
the `rand()` stream `rs`. -/
def shuffleIntArray (rs : List Nat) (l : List Nat) : List Nat :=
  fyAux l (l.length - 1) rs

/-- `shuffleOptions` (QuizGame.cpp lines 122-133): permute the four option
slots by a shuffled index list and recompute `correctIndex` as the (last)
position `i` with `idx[i] == originalCorrectIndex`. -/
def shuffleOptions (rs : List Nat) (q : Question) : Question :=
  let idx := shuffleIntArray rs [0, 1, 2, 3]
  let newOpts := idx.map (fun j => q.options.getD j "")
  let newCorrect := (List.range 4).foldl
    (fun acc i => if idx.getD i 0 = q.originalCorrectIndex then i else acc) 0
  { q with options := newOpts, correctIndex := newCorrect }

/-- `apply5050` (QuizGame.cpp lines 135-143): collect the three wrong
indices in ascending scan order, shuffle them, and return the visibility
list `[correct, wrongs[0]]` put into ascending order.  `rs` supplies the
`rand()` values consumed by the wrongs shuffle. -/
def apply5050 (rs : List Nat) (q : Question) : List Nat :=
  let wrongs := (List.range 4).filter (fun i => i != q.correctIndex)
  let ws := shuffleIntArray rs wrongs
  let v0 := q.correctIndex
  let v1 := ws.getD 0 0
  if v0 > v1 then [v1, v0] else [v0, v1]

/-- The Replace search loop (QuizGame.cpp lines 425-437):
`for (attempt = 0; attempt < allCount; ++attempt) { r = rand() % allCount;
if (allQ[r].text != q.text) pick allQ[r]; }`.  Returns the picked bank
question (before its fresh option shuffle) and the unconsumed rest of the
`rand()` stream. -/
def replaceSearch (bank : List Question) (curText : String) :
    Nat → List Nat → Option Question × List Nat
  | 0, rs => (none, rs)
  | n + 1, rs =>
    let r := rs.headD 0 % bank.length
    let cand := bank.getD r default
    if cand.text ≠ curText then (some cand, rs.tail)
    else replaceSearch bank curText n rs.tail

/-- The four lifeline-availability booleans
`lif_5050, lif_skip, lif_replace, lif_extra` (QuizGame.cpp line 322). -/
structure Lifelines where
  fifty : Bool
  skip : Bool
  replace : Bool
  extra : Bool
deriving Repr, DecidableEq, Inhabited

/-- The contents written by `saveProgress` (QuizGame.cpp lines 212-223),
modelled at field granularity: player name, the aggregate line, the
answers and question-index lines (`for i < qCount` — previous questions
only), and the trailing `remainingSecondsForCurrent` line.  The
`timestamp` field is not tracked (no claim mentions it). -/
structure SaveFile where
  playerName : String
  score : Int
  correct : Nat
  wrong : Nat
  answers : List Nat
  questionIndices : List Nat
  remainingSecondsForCurrent : Int
deriving Repr, DecidableEq, Inhabited

/-- The mutable state of `startQuiz`'s question loop (QuizGame.cpp
lines 329-566): the current question copy `q`, the visibility list, the
absolute deadline `endTime`, `result.answers[result.qCount]` (`answer`),
`result.remainingSecondsForCurrent` (`remainingSaved`),
`questionCompleted`, the lifeline flags, the running tallies, the
already-recorded answers/indices of finished questions, and the sequence
of snapshots written by `saveProgress` (most recent last — the file is
fully rewritten, so the last element is what is on disk). -/
structure RunState where
  q : Question
  qIndex : Nat
  visible : List Nat
  endTime : Int
  answer : Nat
  remainingSaved : Int
  completed : Bool
  life : Lifelines
  tally : Tally
  answersPrev : List Nat
  qIndicesPrev : List Nat
  playerName : String
  saves : List SaveFile
deriving Repr, DecidableEq, Inhabited

/-- One observable step of the inner polling loop (QuizGame.cpp
lines 367-510).
* `press c now`: `getNonBlockingKey()` returned `c` at wall-clock `now`
  (the same `now` is used by the subsequent timeout check).  The key `L`
  is not modelled here: pressing `L` opens the *blocking* lifeline menu,
  and that whole interaction is the `menu` event.
* `idle now`: no key this tick (`getNonBlockingKey()` returned 0, or an
  extended key was drained); only the timeout check runs.
* `menu now choice rands exitNow`: `L` pressed at `now`, the blocking
  menu prompt returned `choice` (0..4), `rands` supplies the `rand()`
  values consumed by 50/50 or Replace, and `exitNow` is the wall clock
  when the menu interaction ends (used by the deadline rebuilds and the
  auto-save). -/
inductive Event where
  | press (c : Char) (now : Int)
  | idle (now : Int)
  | menu (now : Int) (choice : Nat) (rands : List Nat) (exitNow : Int)
deriving Repr

/-- Build the snapshot record written by `saveProgress` from the current
state (QuizGame.cpp lines 513 and 212-223): the tallies are copied into
`result` just before saving, and the answers/indices loops run over the
finished questions only (`i < r.qCount`). -/
def mkSave (s : RunState) (rem : Int) : SaveFile :=
  { playerName := s.playerName, score := s.tally.score,
    correct := s.tally.correct, wrong := s.tally.wrong,
    answers := s.answersPrev, questionIndices := s.qIndicesPrev,
    remainingSecondsForCurrent := rem }

/-- The auto-save executed whenever the inner polling loop breaks
(QuizGame.cpp lines 512-523): if the question completed,
`result.remainingSecondsForCurrent = 0`; otherwise it is recomputed as
`max 0 (endTime - time(NULL))`; then `saveProgress` rewrites the file. -/
def postBreakSave (s : RunState) (saveNow : Int) : RunState :=
  let rem : Int := if s.completed then 0 else max 0 (s.endTime - saveNow)
  let s1 := { s with remainingSaved := rem }
  { s1 with saves := s1.saves ++ [mkSave s1 rem] }

/-- Question-entry setup (QuizGame.cpp lines 330-347): record the current
slot index, reset the answer and visibility, take the starting seconds
from `result.remainingSecondsForCurrent` when positive (consuming it),
else `DEFAULT_TIME_PER_QUESTION`, and set `endTime = now + seconds`. -/
def startQuestion (s : RunState) (q : Question) (qIdx : Nat) (startNow : Int) :
    RunState :=
  let remaining : Int :=
    if s.remainingSaved > 0 then s.remainingSaved else DEFAULT_TIME_PER_QUESTION
  { s with
    q := q
    qIndex := qIdx
    visible := [0, 1, 2, 3]
    answer := 0
    remainingSaved := if s.remainingSaved > 0 then 0 else s.remainingSaved
    completed := false
    endTime := startNow + remaining }

/-- The timeout check at the bottom of each polling iteration
(QuizGame.cpp lines 479-494): if `now >= endTime`, record the question as
unanswered, apply the deduction, complete the question, break, and
auto-save. -/
def timeoutCheck (s : RunState) (now : Int) : RunState :=
  if now ≥ s.endTime then
    postBreakSave
      { s with
        answer := 0
        remainingSaved := 0
        tally := timeoutTally s.q.difficulty s.tally
        completed := true }
      now
  else s

/-- The lifeline-menu interaction opened by `L` (QuizGame.cpp
lines 384-460): on entry the remaining seconds are snapshotted
(`max 0 (endTime - now)`); then the chosen branch runs; the inner loop
always breaks afterwards, triggering the auto-save at `exitNow`. -/
def menuStep (bank : List Question) (s : RunState) (now : Int) (choice : Nat)
    (rands : List Nat) (exitNow : Int) : RunState :=
  let rem : Int := max 0 (s.endTime - now)
  let s0 := { s with remainingSaved := rem }
  let s1 :=
    if choice = 1 then
      if s0.life.fifty then
        { s0 with life := { s0.life with fifty := false },
                  visible := apply5050 rands s0.q }
      else s0
    else if choice = 2 then
      if s0.life.skip then
        { s0 with life := { s0.life with skip := false }, answer := 0,
                  remainingSaved := 0, completed := true }
      else s0
    else if choice = 3 then
      if s0.life.replace then
        let s2 := { s0 with life := { s0.life with replace := false } }
        let sr := replaceSearch bank s2.q.text bank.length rands
        let s3 :=
          match sr.1 with
          | some cand =>
            { s2 with q := shuffleOptions sr.2 cand, visible := [0, 1, 2, 3] }
          | none => s2
        { s3 with endTime := exitNow + rem }
      else s0
    else if choice = 4 then
      if s0.life.extra then
        if rem ≤ 0 then s0
        else
          { s0 with life := { s0.life with extra := false },
                    endTime := exitNow + (rem + EXTRA_TIME_AMOUNT) }
      else s0
    else s0
  postBreakSave s1 exitNow

/-- One observable step of the inner polling loop (QuizGame.cpp
lines 367-510).  Keys `1..4` answer immediately (before any timeout
check); `S`/`s` is the quick skip; other keys are ignored and fall
through to the timeout check, as does an idle tick. -/
def stepEvent (bank : List Question) (s : RunState) (ev : Event) : RunState :=
  if s.completed then s
  else
    match ev with
    | .idle now => timeoutCheck s now
    | .press c now =>
      if '1' ≤ c ∧ c ≤ '4' then
        postBreakSave
          { s with
            answer := c.toNat - 48
            remainingSaved := max 0 (s.endTime - now)
            completed := true }
          now
      else if c = 'L' ∨ c = 'l' then s
      else if c = 'S' ∨ c = 's' then
        if s.life.skip then
          postBreakSave
            { s with
              life := { s.life with skip := false }
              answer := 0
              remainingSaved := 0
              completed := true }
            now
        else timeoutCheck s now
      else timeoutCheck s now
    | .menu now choice rands exitNow => menuStep bank s now choice rands exitNow

/-- The evaluation and second save after a question completes
(QuizGame.cpp lines 528-565): fold the recorded answer into the tallies
(`evalAnswer`; a `0` answer changes nothing — the timeout deduction was
applied in the loop, and a skip is free), append the answer and slot
index to the recorded lists, increment `qCount`, and save again. -/
def finishQuestion (s : RunState) : RunState :=
  let s1 :=
    { s with
      tally := evalAnswer s.q s.answer s.tally
      answersPrev := s.answersPrev ++ [s.answer]
      qIndicesPrev := s.qIndicesPrev ++ [s.qIndex] }
  { s1 with saves := s1.saves ++ [mkSave s1 s1.remainingSaved] }

/-- One iteration of the outer `for (qi = 0; qi < quizCount; ++qi)` loop
(QuizGame.cpp lines 329-566), driven by the event trace of its inner
loop.  If the trace ends before the question completes, the returned
state is the in-flight state at that point (e.g. the process dying
mid-question). -/
def runQuestion (bank : List Question) (s : RunState) (q : Question)
    (qIdx : Nat) (startNow : Int) (events : List Event) : RunState :=
  let s1 := events.foldl (stepEvent bank) (startQuestion s q qIdx startNow)
  if s1.completed then finishQuestion s1 else s1

/-- The state at `startQuiz` entry (QuizGame.cpp lines 322-325): all
lifelines available, zero tallies, no recorded questions, no snapshot
written yet. -/
def initState (name : String) : RunState :=
  { q := default, qIndex := 0, visible := [0, 1, 2, 3], endTime := 0,
    answer := 0, remainingSaved := 0, completed := false,
    life := { fifty := true, skip := true, replace := true, extra := true },
    tally := { score := 0, correct := 0, wrong := 0, streak := 0 },
    answersPrev := [], qIndicesPrev := [], playerName := name, saves := [] }

/-- One prepared quiz slot for `runSession`: the (already option-shuffled)
question copy, its slot index `qi`, the wall clock at question entry, and
the trace of its polling loop. -/
structure QuestionScript where
  q : Question
  qIdx : Nat
  startNow : Int
  events : List Event

/-- The whole question loop of `startQuiz` over prepared quiz slots
(QuizGame.cpp lines 329-566). -/
def runSession (bank : List Question) (name : String)
    (items : List QuestionScript) : RunState :=
  items.foldl (fun s it => runQuestion bank s it.q it.qIdx it.startNow it.events)
    (initState name)

/-- `struct ScoreEntry` (QuizGame.cpp lines 54-58).  The strings are
`List Char` because the high-score file is modelled at character level. -/
structure ScoreEntry where
  name : List Char
  score : Int
  datetime : List Char
deriving Repr, DecidableEq, Inhabited

/-- The decimal digit characters produced by `operator<<` for one digit
value `0..9`. -/
def digitChar (n : Nat) : Char :=
  if n = 0 then '0' else if n = 1 then '1' else if n = 2 then '2'
  else if n = 3 then '3' else if n = 4 then '4' else if n = 5 then '5'
  else if n = 6 then '6' else if n = 7 then '7' else if n = 8 then '8'
  else '9'

/-- Fuel-driven core of the decimal rendering (structural recursion on
the fuel, so that the kernel can evaluate it): emit the digits of `n`
most significant first, in front of `acc`. -/
def natCharsCore : Nat → Nat → List Char → List Char
  | 0, _, acc => acc
  | fuel + 1, n, acc =>
    if n < 10 then digitChar n :: acc
    else natCharsCore fuel (n / 10) (digitChar (n % 10) :: acc)

/-- Decimal rendering of a natural number, most significant digit first,
as `operator<<` prints it. -/
def natChars (n : Nat) : List Char := natCharsCore (n + 1) n []

/-- Decimal rendering of an `int` by `operator<<`: a leading `-` for
negative values. -/
def intChars (i : Int) : List Char :=
  if i < 0 then '-' :: natChars i.natAbs else natChars i.toNat

/-- Decimal digit test used by the `stoi` model. -/
def isDigitCh (c : Char) : Bool := 48 ≤ c.toNat && c.toNat ≤ 57

/-- Whitespace test of the leading-whitespace skip in `stoi`
(space, tab, newline, carriage return, vertical tab, form feed). -/
def isSpaceCh (c : Char) : Bool :=
  c.toNat = 32 || c.toNat = 9 || c.toNat = 10 || c.toNat = 13 ||
    c.toNat = 11 || c.toNat = 12

/-- Accumulate a digit string into a natural number. -/
def natFromDigits (cs : List Char) : Nat :=
  cs.foldl (fun a c => a * 10 + (c.toNat - 48)) 0

/-- `std::stoi` on a character list: skip leading whitespace, read an
optional sign and then a non-empty run of digits (`none` models the
`std::invalid_argument` throw caught by the caller). -/
def stoiChars (cs0 : List Char) : Option Int :=
  match cs0.dropWhile isSpaceCh with
  | [] => none
  | c :: rest =>
    if c = '-' then
      let ds := rest.takeWhile isDigitCh
      if ds = [] then none else some (-(natFromDigits ds : Int))
    else if c = '+' then
      let ds := rest.takeWhile isDigitCh
      if ds = [] then none else some ((natFromDigits ds : Int))
    else
      let ds := (c :: rest).takeWhile isDigitCh
      if ds = [] then none else some ((natFromDigits ds : Int))

/-- `std::getline` applied repeatedly to a character stream: a `'\x0a'`
ends a line (and is consumed); a non-empty trailing segment without a
final newline is still one line; at end of input `getline` fails. -/
def splitLinesAux (cur : List Char) : List Char → List (List Char)
  | [] => if cur.isEmpty then [] else [cur]
  | c :: rest =>
    if c = '\x0a' then cur :: splitLinesAux [] rest
    else splitLinesAux (cur ++ [c]) rest

/-- All lines of a character stream, per `std::getline`. -/
def splitLines (cs : List Char) : List (List Char) := splitLinesAux [] cs

/-- The per-line parse of `readHighScores` (QuizGame.cpp lines 159-170):
skip empty lines and lines without two `|` separators; `name` is the text
before the first `|`, the score is `stoi` of the text between the first
two `|` (0 if `stoi` throws), `datetime` is everything after the second
`|`. -/
def parseScoreLine (l : List Char) : Option ScoreEntry :=
  if l.isEmpty then none
  else
    let p1 := l.findIdx (fun c => c == '|')
    if p1 < l.length then
      let rest := l.drop (p1 + 1)
      let i2 := rest.findIdx (fun c => c == '|')
      if i2 < rest.length then
        some { name := l.take p1
               score := (stoiChars (rest.take i2)).getD 0
               datetime := rest.drop (i2 + 1) }
      else none
    else none

/-- `readHighScores` (QuizGame.cpp lines 154-174): parse every line,
keeping at most `MAX_QUIZ_QUESTIONS = 50` entries in file order. -/
def readHighScores (file : List Char) : List ScoreEntry :=
  ((splitLines file).filterMap parseScoreLine).take 50

/-- The line `name|score|datetime` written by `writeHighScore`
(QuizGame.cpp line 179), without its final newline. -/
def renderEntry (e : ScoreEntry) : List Char :=
  e.name ++ '|' :: (intChars e.score ++ '|' :: e.datetime)

/-- `writeHighScore` (QuizGame.cpp lines 176-181): append one
`name|score|datetime` line to the file. -/
def writeHighScore (file : List Char) (e : ScoreEntry) : List Char :=
  file ++ renderEntry e ++ ['\x0a']

/-- `writeHighScore` iterated over a list of entries in order. -/
def writeAll (file : List Char) (es : List ScoreEntry) : List Char :=
  es.foldl writeHighScore file

/-- The category-number-to-file mapping of the main menu (QuizGame.cpp
lines 598-605 and 626-632). -/
def categoryFileOf (cat : Nat) : String :=
  if cat = 1 then "science.txt" else if cat = 2 then "sports.txt"
  else if cat = 3 then "history.txt" else if cat = 4 then "computer.txt"
  else if cat = 5 then "iq.txt" else "science.txt"

/-- One main-menu selection (QuizGame.cpp lines 589-653): the digit the
user enters, together with the inputs each branch then consumes (the
category for Start; the `loadProgress` outcome and the category prompt
for Resume; the confirmation for Exit). -/
inductive MenuChoice where
  | startChoice (cat : Nat)
  | viewScores
  | resumeChoice (loaded : Option SaveFile) (cat : Nat)
  | exitChoice (confirm : Bool)

/-- The observable effect of one main-menu iteration: whether a quiz
session is launched (`some categoryFile`; a launched session always
begins from `initState` — QuizGame.cpp line 325 builds a fresh
`QuizResult`), what saved fields the Resume branch prints, whether a
category prompt is shown, and whether control returns to the menu loop. -/
structure MenuEffect where
  launchedQuiz : Option String
  printedName : Option String
  printedScore : Option Int
  printedRemaining : Option Int
  promptedCategory : Bool
  returnsToMenu : Bool
deriving Repr, DecidableEq

/-- One iteration of the `while (true)` menu loop in `main` (QuizGame.cpp
lines 589-653).  The Resume branch with a loadable snapshot (lines
616-646) prints the saved name, score and remaining seconds, prompts for
a category, prints the informational notes, and falls through to the next
menu iteration; it contains no `startQuiz` call. -/
def mainStep : MenuChoice → MenuEffect
  | .startChoice cat =>
    { launchedQuiz := some (categoryFileOf cat), printedName := none,
      printedScore := none, printedRemaining := none,
      promptedCategory := true, returnsToMenu := true }
  | .viewScores =>
    { launchedQuiz := none, printedName := none, printedScore := none,
      printedRemaining := none, promptedCategory := false,
      returnsToMenu := true }
  | .resumeChoice none _ =>
    { launchedQuiz := none, printedName := none, printedScore := none,
      printedRemaining := none, promptedCategory := false,
      returnsToMenu := true }
  | .resumeChoice (some r) _ =>
    { launchedQuiz := none, printedName := some r.playerName,
      printedScore := some r.score,
      printedRemaining := some r.remainingSecondsForCurrent,
      promptedCategory := true, returnsToMenu := true }
  | .exitChoice confirm =>
    { launchedQuiz := none, printedName := none, printedScore := none,
      printedRemaining := none, promptedCategory := false,
      returnsToMenu := !confirm }

/-- The streak bonus granted on a correct answer (QuizGame.cpp
lines 552-553), as a function of the streak value just reached. -/
def streakBonus (streak : Nat) : Int :=
  if streak = 3 then 5 else if streak = 5 then 15 else 0

/-- A concrete easy question used by the concrete scenarios: difficulty 1,
correct option in slot 0. -/
def qd1 : Question :=
  { text := "Q", options := ["a", "b", "c", "d"], correctIndex := 0,
    originalCorrectIndex := 0, difficulty := 1 }

/-- Scenario: ten questions, each answered correctly (key `1`) well
before its deadline, no lifelines. -/
def tenCorrect : List QuestionScript :=
  List.replicate 10
    { q := qd1, qIdx := 0, startNow := 0, events := [Event.press '1' 0] }

/-- Scenario: the first four questions of a session, each answered
correctly two seconds in. -/
def fourCorrect : List QuestionScript :=
  (List.range 4).map fun i =>
    { q := qd1, qIdx := i, startNow := 20 * i,
      events := [Event.press '1' (20 * i + 2)] }

/-- The session state after the four correct answers of `fourCorrect`
(score 45: 10+10+10+5 streak bonus+10). -/
def stateAfterFour : RunState := runSession [qd1] "P" fourCorrect

/-- The crash scenario of the spec (question 5 entered at time 100,
deadline 110, process dies after an idle poll at time 104, i.e. with 6
seconds remaining and no lifeline-menu visit). -/
def crashedFifth : RunState :=
  runQuestion [qd1] stateAfterFour qd1 4 100 [Event.idle 104]

/-- A high-score entry whose name contains the separator character. -/
def eBad : ScoreEntry := { name := ['a', '|', 'b'], score := 5, datetime := ['d'] }

/-- A second concrete question, textually distinct from `qd1`, so that a
Replace search can succeed. -/
def qd2 : Question :=
  { text := "R", options := ["w", "x", "y", "z"], correctIndex := 2,
    originalCorrectIndex := 2, difficulty := 2 }

/-- C1.  A correct answer adds exactly `reward difficulty`
(10 / 15 / 20 for difficulty 1 / 2 / 3), increments `correctCount` and
`streak`, adds a +5 bonus exactly when the streak reaches 3 and a +15
bonus exactly when it reaches 5, and leaves `wrongCount` unchanged; a
session of ten consecutive correct answers at difficulty 1 ends with
score 120, correct = 10, wrong = 0. -/
theorem correct_answer_scoring :
    (∀ (q : Question) (t : Tally) (k : Nat), k ≠ 0 → k - 1 = q.correctIndex →
      evalAnswer q k t =
        { score := t.score + reward q.difficulty + streakBonus (t.streak + 1),
          correct := t.correct + 1, wrong := t.wrong, streak := t.streak + 1 } ∧
      (q.difficulty = 1 → reward q.difficulty = 10) ∧
      (q.difficulty = 2 → reward q.difficulty = 15) ∧
      (q.difficulty = 3 → reward q.difficulty = 20)) ∧
    (runSession [qd1] "P" tenCorrect).tally =
      { score := 120, correct := 10, wrong := 0, streak := 10 } := by
  constructor
  · intro q t k hk hcorr
    refine ⟨?_, ?_, ?_, ?_⟩
    · simp only [evalAnswer, if_neg hk, hcorr, if_pos rfl, streakBonus]
      split_ifs <;> simp_all
    · intro h; simp [reward, h]
    · intro h; simp [reward, h]
    · intro h; simp [reward, h]
  · decide

/-- C1 witness: the per-answer characterisation evaluated at a concrete
question and tally. -/
theorem correct_answer_scoring_witness :
    evalAnswer qd1 1 { score := 0, correct := 0, wrong := 0, streak := 0 } =
      { score := 10, correct := 1, wrong := 0, streak := 1 } := by
  have h :=
    (correct_answer_scoring.1 qd1
      { score := 0, correct := 0, wrong := 0, streak := 0 } 1
      (by decide) (by decide)).1
  rw [h]; decide

/-- C2.  Over a whole question: a timeout or a wrong answer deducts
exactly `penalty difficulty` (2 / 3 / 5 for difficulty 1 / 2 / 3) once,
increments `wrongCount` once and resets the streak; a skip (lifeline-menu
choice 2 or the `S` quick skip) leaves score, correctCount, wrongCount
and streak unchanged. -/
theorem penalty_and_skip_scoring :
    (∀ (bank : List Question) (s : RunState) (q : Question) (qIdx : Nat)
        (startNow now : Int),
      s.remainingSaved ≤ 0 → startNow + DEFAULT_TIME_PER_QUESTION ≤ now →
      (runQuestion bank s q qIdx startNow [Event.idle now]).tally =
        { score := s.tally.score - penalty q.difficulty,
          correct := s.tally.correct, wrong := s.tally.wrong + 1,
          streak := 0 }) ∧
    (∀ (bank : List Question) (s : RunState) (q : Question) (qIdx : Nat)
        (startNow now : Int) (c : Char),
      '1' ≤ c → c ≤ '4' → c.toNat - 49 ≠ q.correctIndex →
      (runQuestion bank s q qIdx startNow [Event.press c now]).tally =
        { score := s.tally.score - penalty q.difficulty,
          correct := s.tally.correct, wrong := s.tally.wrong + 1,
          streak := 0 }) ∧
    (∀ (bank : List Question) (s : RunState) (q : Question) (qIdx : Nat)
        (startNow now : Int) (rands : List Nat) (exitNow : Int),
      s.life.skip = true →
      (runQuestion bank s q qIdx startNow
        [Event.menu now 2 rands exitNow]).tally = s.tally) ∧
    (∀ (bank : List Question) (s : RunState) (q : Question) (qIdx : Nat)
        (startNow now : Int),
      s.life.skip = true →
      (runQuestion bank s q qIdx startNow [Event.press 'S' now]).tally =
        s.tally) ∧
    (penalty 1 = 2 ∧ penalty 2 = 3 ∧ penalty 3 = 5) := by
  refine ⟨?_, ?_, ?_, ?_, by decide⟩
  · intro bank s q qIdx startNow now h1 h2
    have hrem : ¬ (s.remainingSaved > 0) := by omega
    simp only [DEFAULT_TIME_PER_QUESTION] at h2
    simp [runQuestion, startQuestion, stepEvent, timeoutCheck, postBreakSave,
      finishQuestion, evalAnswer, timeoutTally, mkSave, hrem, h2,
      DEFAULT_TIME_PER_QUESTION]
  · intro bank s q qIdx startNow now c hc1 hc4 hwrong
    have hc : '1' ≤ c ∧ c ≤ '4' := ⟨hc1, hc4⟩
    have hne : ¬ (c.toNat - 48 = 0) := by
      have : 49 ≤ c.toNat := hc1
      omega
    have hm1 : c.toNat - 48 - 1 = c.toNat - 49 := by omega
    simp [runQuestion, startQuestion, stepEvent, postBreakSave,
      finishQuestion, evalAnswer, mkSave, hc, hne, hm1, hwrong]
  · intro bank s q qIdx startNow now rands exitNow hskip
    simp [runQuestion, startQuestion, stepEvent, menuStep, postBreakSave,
      finishQuestion, evalAnswer, mkSave, hskip]
  · intro bank s q qIdx startNow now hskip
    simp [runQuestion, startQuestion, stepEvent, postBreakSave,
      finishQuestion, evalAnswer, mkSave, hskip]

/-- C2 witness: the four outcome characterisations evaluated at a
concrete state. -/
theorem penalty_and_skip_scoring_witness :
    (runQuestion [qd1] (initState "P") qd1 0 0 [Event.idle 10]).tally =
      { score := -2, correct := 0, wrong := 1, streak := 0 } ∧
    (runQuestion [qd1] (initState "P") qd1 0 0 [Event.press '2' 1]).tally =
      { score := -2, correct := 0, wrong := 1, streak := 0 } ∧
    (runQuestion [qd1] (initState "P") qd1 0 0
      [Event.menu 1 2 [] 1]).tally = (initState "P").tally ∧
    (runQuestion [qd1] (initState "P") qd1 0 0 [Event.press 'S' 1]).tally =
      (initState "P").tally := by
  refine ⟨?_, ?_, ?_, ?_⟩
  · have h := penalty_and_skip_scoring.1 [qd1] (initState "P") qd1 0 0 10
      (by decide) (by decide)
    rw [h]; decide
  · have h := penalty_and_skip_scoring.2.1 [qd1] (initState "P") qd1 0 0 1 '2'
      (by decide) (by decide) (by decide)
    rw [h]; decide
  · exact penalty_and_skip_scoring.2.2.1 [qd1] (initState "P") qd1 0 0 1 [] 1
      (by decide)
  · exact penalty_and_skip_scoring.2.2.2.1 [qd1] (initState "P") qd1 0 0 1
      (by decide)

/-- C3.  Contrary to the claim, the code marks Replace consumed *before*
searching and does not refund it when no alternative exists: with a
single-question bank, invoking Replace (menu choice 3) leaves the
question unchanged ("No replacement found.") yet `lif_replace` stays
`false`, so Replace is not available for later use (QuizGame.cpp
line 423 versus lines 425-438). -/
theorem replace_lifeline_not_refunded :
    (stepEvent [qd1] (startQuestion (initState "P") qd1 0 0)
        (Event.menu 0 3 [0, 0, 0, 0, 0] 0)).q = qd1 ∧
    (stepEvent [qd1] (startQuestion (initState "P") qd1 0 0)
        (Event.menu 0 3 [0, 0, 0, 0, 0] 0)).life.replace = false := by
  decide

/-- C5.  A `1`..`4` keypress observed in the same polling tick at which
the deadline has already passed (`now ≥ endTime`, remaining seconds 0)
completes the question as Answered with the pressed option recorded
(non-zero), and the tallies are updated by the answered-evaluation path,
not by the timeout path. -/
theorem input_wins_over_expiry :
    ∀ (bank : List Question) (s : RunState) (q : Question) (qIdx : Nat)
      (startNow now : Int) (c : Char),
      '1' ≤ c → c ≤ '4' → s.remainingSaved ≤ 0 →
      startNow + DEFAULT_TIME_PER_QUESTION ≤ now →
      (runQuestion bank s q qIdx startNow [Event.press c now]).answersPrev =
          s.answersPrev ++ [c.toNat - 48] ∧
      c.toNat - 48 ≠ 0 ∧
      (runQuestion bank s q qIdx startNow [Event.press c now]).tally =
        evalAnswer q (c.toNat - 48) s.tally := by
  intro bank s q qIdx startNow now c hc1 hc4 hrem hexp
  have hc : '1' ≤ c ∧ c ≤ '4' := ⟨hc1, hc4⟩
  have hne : c.toNat - 48 ≠ 0 := by
    have : 49 ≤ c.toNat := hc1
    omega
  refine ⟨?_, hne, ?_⟩ <;>
    simp [runQuestion, startQuestion, stepEvent, postBreakSave,
      finishQuestion, mkSave, hc]

/-- C5 witness: key `1` pressed exactly at the deadline of a
default-length question is recorded and scored as a correct answer. -/
theorem input_wins_over_expiry_witness :
    (runQuestion [qd1] (initState "P") qd1 0 0
        [Event.press '1' 10]).answersPrev = [1] ∧
    (1 : Nat) ≠ 0 ∧
    (runQuestion [qd1] (initState "P") qd1 0 0 [Event.press '1' 10]).tally =
      evalAnswer qd1 1 (initState "P").tally := by
  have h := input_wins_over_expiry [qd1] (initState "P") qd1 0 0 10 '1'
    (by decide) (by decide) (by decide) (by decide)
  exact h

/-- No step of the polling loop ever sets a consumed ExtraTime lifeline
back to available. -/
theorem stepEvent_preserves_no_extra (bank : List Question) (s : RunState)
    (ev : Event) (h : s.life.extra = false) :
    (stepEvent bank s ev).life.extra = false := by
  cases ev <;>
    simp only [stepEvent, timeoutCheck, menuStep, postBreakSave, mkSave] <;>
    (repeat' split) <;> simp_all

/-- No polling trace ever sets a consumed ExtraTime lifeline back to
available. -/
theorem foldl_preserves_no_extra (bank : List Question) :
    ∀ (evs : List Event) (s : RunState), s.life.extra = false →
      (evs.foldl (stepEvent bank) s).life.extra = false := by
  intro evs
  induction evs with
  | nil => intro s h; exact h
  | cons e rest ih =>
    intro s h
    exact ih _ (stepEvent_preserves_no_extra bank s e h)

/-- C8.  Selecting ExtraTime (menu choice 4) when the remaining seconds
are 0 is refused: the lifeline stays available and the deadline, tallies
and completion flag are untouched.  Otherwise ExtraTime is marked
consumed, exactly `EXTRA_TIME_AMOUNT = 10` seconds are added to the
remaining time, and the deadline is rebuilt as
`now + remainingSeconds`; a consumed ExtraTime is never made available
again by any later step of the session. -/
theorem extratime_lifeline :
    (∀ (bank : List Question) (s : RunState) (now : Int) (rands : List Nat)
        (exitNow : Int),
      s.completed = false → s.life.extra = true → s.endTime ≤ now →
      (stepEvent bank s (Event.menu now 4 rands exitNow)).life = s.life ∧
      (stepEvent bank s (Event.menu now 4 rands exitNow)).endTime =
        s.endTime ∧
      (stepEvent bank s (Event.menu now 4 rands exitNow)).completed = false ∧
      (stepEvent bank s (Event.menu now 4 rands exitNow)).tally = s.tally) ∧
    (∀ (bank : List Question) (s : RunState) (now : Int) (rands : List Nat)
        (exitNow : Int),
      s.completed = false → s.life.extra = true → now < s.endTime →
      (stepEvent bank s (Event.menu now 4 rands exitNow)).life.extra =
        false ∧
      (stepEvent bank s (Event.menu now 4 rands exitNow)).endTime =
        exitNow + ((s.endTime - now) + EXTRA_TIME_AMOUNT) ∧
      (stepEvent bank s (Event.menu now 4 rands exitNow)).remainingSaved =
        (s.endTime - now) + EXTRA_TIME_AMOUNT ∧
      (stepEvent bank s (Event.menu now 4 rands exitNow)).completed =
        false) ∧
    (∀ (bank : List Question) (s : RunState) (q : Question) (qIdx : Nat)
        (startNow : Int) (events : List Event),
      s.life.extra = false →
      (runQuestion bank s q qIdx startNow events).life.extra = false) := by
  refine ⟨?_, ?_, ?_⟩
  · intro bank s now rands exitNow hc hx hexp
    have hmax : max 0 (s.endTime - now) = 0 := by omega
    simp [stepEvent, menuStep, postBreakSave, mkSave, hc, hx, hmax]
  · intro bank s now rands exitNow hc hx hlt
    have hmax : max 0 (s.endTime - now) = s.endTime - now := by omega
    have hpos : ¬ (s.endTime - now ≤ 0) := by omega
    have hmax2 :
        max 0 (s.endTime - now + EXTRA_TIME_AMOUNT) =
          s.endTime - now + EXTRA_TIME_AMOUNT := by
      simp only [EXTRA_TIME_AMOUNT]; omega
    simp [stepEvent, menuStep, postBreakSave, mkSave, hc, hx, hmax, hpos,
      hmax2]
  · intro bank s q qIdx startNow events h
    have h0 : (startQuestion s q qIdx startNow).life.extra = false := h
    have h1 := foldl_preserves_no_extra bank events _ h0
    simp only [runQuestion]
    split
    · simp [finishQuestion, mkSave, h1]
    · exact h1

/-- C8 witness: the refusal and the successful application evaluated at a
concrete state (deadline 10; menu opened at time 10 resp. time 3), and
the consumed flag surviving a whole later question. -/
theorem extratime_lifeline_witness :
    ((stepEvent [qd1] (startQuestion (initState "P") qd1 0 0)
        (Event.menu 10 4 [] 11)).life =
      (startQuestion (initState "P") qd1 0 0).life) ∧
    ((stepEvent [qd1] (startQuestion (initState "P") qd1 0 0)
        (Event.menu 3 4 [] 4)).endTime = 4 + ((10 - 3) + 10)) ∧
    ((runQuestion [qd1]
        { startQuestion (initState "P") qd1 0 0 with
          life := { fifty := true, skip := true, replace := true,
                    extra := false } }
        qd1 1 20 [Event.idle 25, Event.idle 31]).life.extra = false) := by
  refine ⟨?_, ?_, ?_⟩
  · exact (extratime_lifeline.1 [qd1] (startQuestion (initState "P") qd1 0 0)
      10 [] 11 (by decide) (by decide) (by decide)).1
  · have h := (extratime_lifeline.2.1 [qd1]
      (startQuestion (initState "P") qd1 0 0) 3 [] 4
      (by decide) (by decide) (by decide)).2.1
    rw [h]; decide
  · exact extratime_lifeline.2.2 [qd1]
      { startQuestion (initState "P") qd1 0 0 with
        life := { fifty := true, skip := true, replace := true,
                  extra := false } }
      qd1 1 20 [Event.idle 25, Event.idle 31] (by decide)

/-- The option shuffler preserves the correct option text: whatever
`rand()` values drive the Fisher-Yates pass, the slot recorded as
`correctIndex` afterwards holds the option that sat at
`originalCorrectIndex` before. -/
theorem shuffleOptions_getD (rs : List Nat) (q : Question)
    (h : q.originalCorrectIndex < 4) :
    (shuffleOptions rs q).options.getD (shuffleOptions rs q).correctIndex ""
      = q.options.getD q.originalCorrectIndex "" := by
  obtain ⟨t, os, ci, oci, d⟩ := q
  simp only at h
  have hfy : shuffleIntArray rs [0, 1, 2, 3] =
      listSwap
        (listSwap (listSwap [0, 1, 2, 3] 3 (rs.headD 0 % 4)) 2
          (rs.tail.headD 0 % 3))
        1 (rs.tail.tail.headD 0 % 2) := rfl
  have h4 : rs.headD 0 % 4 < 4 := Nat.mod_lt _ (by norm_num)
  have h3 : rs.tail.headD 0 % 3 < 3 := Nat.mod_lt _ (by norm_num)
  have h2 : rs.tail.tail.headD 0 % 2 < 2 := Nat.mod_lt _ (by norm_num)
  simp only [shuffleOptions, hfy]
  revert h4 h3 h2
  generalize rs.headD 0 % 4 = a
  generalize rs.tail.headD 0 % 3 = b
  generalize rs.tail.tail.headD 0 % 2 = c
  intro h4 h3 h2
  interval_cases a <;> interval_cases b <;> interval_cases c <;>
    interval_cases oci <;> rfl

/-- A successful Replace search returns a member of the bank. -/
theorem replaceSearch_mem (bank : List Question) (txt : String) :
    ∀ (n : Nat) (rs : List Nat) (cand : Question) (rs2 : List Nat),
      bank ≠ [] → replaceSearch bank txt n rs = (some cand, rs2) →
      cand ∈ bank := by
  intro n
  induction n with
  | zero => intro rs cand rs2 hb h; simp [replaceSearch] at h
  | succ m ih =>
    intro rs cand rs2 hb h
    simp only [replaceSearch] at h
    by_cases hx : (bank.getD (rs.headD 0 % bank.length) default).text ≠ txt
    · rw [if_pos hx] at h
      have hc : cand = bank.getD (rs.headD 0 % bank.length) default := by
        have := congrArg Prod.fst h
        simpa using this.symm
      subst hc
      have hlen : 0 < bank.length := List.length_pos.mpr hb
      have hlt : rs.headD 0 % bank.length < bank.length := Nat.mod_lt _ hlen
      rw [List.getD_eq_getElem _ _ hlt]
      exact List.getElem_mem hlt
    · rw [if_neg hx] at h
      exact ih rs.tail cand rs2 hb h

/-- A successful Replace search returns a question whose text differs
from the current question's text. -/
theorem replaceSearch_text (bank : List Question) (txt : String) :
    ∀ (n : Nat) (rs : List Nat) (cand : Question) (rs2 : List Nat),
      replaceSearch bank txt n rs = (some cand, rs2) → cand.text ≠ txt := by
  intro n
  induction n with
  | zero => intro rs cand rs2 h; simp [replaceSearch] at h
  | succ m ih =>
    intro rs cand rs2 h
    simp only [replaceSearch] at h
    by_cases hx : (bank.getD (rs.headD 0 % bank.length) default).text ≠ txt
    · rw [if_pos hx] at h
      have hc : cand = bank.getD (rs.headD 0 % bank.length) default := by
        have := congrArg Prod.fst h
        simpa using this.symm
      subst hc
      exact hx
    · rw [if_neg hx] at h
      exact ih rs.tail cand rs2 h

/-- C6.  After the option shuffler runs, the option at the recorded
`correctIndex` is textually identical to the question's original correct
option; this also covers the fresh shuffle the Replace lifeline performs
on the bank question it picks. -/
theorem shuffle_preserves_correct_option :
    (∀ (rs : List Nat) (q : Question), q.originalCorrectIndex < 4 →
      (shuffleOptions rs q).options.getD
          (shuffleOptions rs q).correctIndex "" =
        q.options.getD q.originalCorrectIndex "") ∧
    (∀ (bank : List Question) (s : RunState) (now : Int) (rands : List Nat)
        (exitNow : Int),
      s.completed = false → s.life.replace = true → bank ≠ [] →
      (∀ b ∈ bank, b.originalCorrectIndex < 4) →
      (stepEvent bank s (Event.menu now 3 rands exitNow)).q = s.q ∨
      ∃ cand ∈ bank, cand.text ≠ s.q.text ∧
        (stepEvent bank s (Event.menu now 3 rands exitNow)).q.options.getD
            (stepEvent bank s (Event.menu now 3 rands exitNow)).q.correctIndex
            "" =
          cand.options.getD cand.originalCorrectIndex "") := by
  constructor
  · exact shuffleOptions_getD
  · intro bank s now rands exitNow hc hrep hb hall
    simp only [stepEvent, menuStep, hc, Bool.false_eq_true, if_false, hrep,
      if_true]
    norm_num
    rcases hm : (replaceSearch bank s.q.text bank.length rands).1 with _ | cand
    · left
      simp [hm, postBreakSave, mkSave]
    · right
      have hsr : replaceSearch bank s.q.text bank.length rands =
          ((replaceSearch bank s.q.text bank.length rands).1,
            (replaceSearch bank s.q.text bank.length rands).2) := rfl
      rw [hm] at hsr
      have hmem := replaceSearch_mem bank s.q.text bank.length rands cand
        (replaceSearch bank s.q.text bank.length rands).2 hb hsr
      refine ⟨cand, hmem, ?_, ?_⟩
      · exact replaceSearch_text bank s.q.text bank.length rands cand
          (replaceSearch bank s.q.text bank.length rands).2 hsr

      · have hg := shuffleOptions_getD
          (replaceSearch bank s.q.text bank.length rands).2 cand
          (hall cand hmem)
        simp only [hm, postBreakSave, mkSave]
        simpa [List.getD] using hg

/-- C6 witness: both parts evaluated concretely — a direct shuffle of
`qd1`, and a Replace (menu choice 3) on a two-question bank. -/
theorem shuffle_preserves_correct_option_witness :
    ((shuffleOptions [7, 4, 1] qd1).options.getD
        (shuffleOptions [7, 4, 1] qd1).correctIndex "" =
      qd1.options.getD qd1.originalCorrectIndex "") ∧
    ((stepEvent [qd1, qd2] (startQuestion (initState "P") qd1 0 0)
        (Event.menu 0 3 [1, 0, 0, 0] 0)).q =
        (startQuestion (initState "P") qd1 0 0).q ∨
      ∃ cand ∈ [qd1, qd2],
        cand.text ≠ (startQuestion (initState "P") qd1 0 0).q.text ∧
        (stepEvent [qd1, qd2] (startQuestion (initState "P") qd1 0 0)
            (Event.menu 0 3 [1, 0, 0, 0] 0)).q.options.getD
            (stepEvent [qd1, qd2] (startQuestion (initState "P") qd1 0 0)
              (Event.menu 0 3 [1, 0, 0, 0] 0)).q.correctIndex "" =
          cand.options.getD cand.originalCorrectIndex "") := by
  constructor
  · exact shuffle_preserves_correct_option.1 [7, 4, 1] qd1 (by decide)
  · exact shuffle_preserves_correct_option.2 [qd1, qd2]
      (startQuestion (initState "P") qd1 0 0) 0 [1, 0, 0, 0] 0
      (by decide) (by decide) (by decide) (by decide)

/-- C7.  Whatever `rand()` values drive it, FiftyFifty produces a
visibility list of exactly two indices in strictly ascending order, one
of which is the current correct index and the other a wrong index
(some index `< 4` different from the correct one). -/
theorem fiftyfifty_visibility :
    ∀ (rs : List Nat) (q : Question), q.correctIndex < 4 →
      (apply5050 rs q).length = 2 ∧
      (apply5050 rs q).getD 0 0 < (apply5050 rs q).getD 1 0 ∧
      q.correctIndex ∈ apply5050 rs q ∧
      (∀ x ∈ apply5050 rs q, x < 4) ∧
      (∃ x ∈ apply5050 rs q, x ≠ q.correctIndex) := by
  intro rs q h
  obtain ⟨t, os, ci, oci, d⟩ := q
  simp only at h ⊢
  have h3 : rs.headD 0 % 3 < 3 := Nat.mod_lt _ (by norm_num)
  have h2 : rs.tail.headD 0 % 2 < 2 := Nat.mod_lt _ (by norm_num)
  have hfy : ∀ l : List Nat, l.length = 3 →
      shuffleIntArray rs l =
        listSwap (listSwap l 2 (rs.headD 0 % 3)) 1 (rs.tail.headD 0 % 2) := by
    intro l hl
    simp only [shuffleIntArray, hl]
    rfl
  interval_cases ci <;>
    (simp only [apply5050]
     rw [hfy _ (by rfl)]
     revert h3 h2
     generalize rs.headD 0 % 3 = b
     generalize rs.tail.headD 0 % 2 = c
     intro h3 h2
     interval_cases b <;> interval_cases c <;> decide)

/-- C7 witness: FiftyFifty evaluated at a concrete question (correct
index 2) and `rand()` values. -/
theorem fiftyfifty_visibility_witness :
    (apply5050 [5, 1] { qd1 with correctIndex := 2 }).length = 2 ∧
    (apply5050 [5, 1] { qd1 with correctIndex := 2 }).getD 0 0 <
      (apply5050 [5, 1] { qd1 with correctIndex := 2 }).getD 1 0 ∧
    ({ qd1 with correctIndex := 2 } : Question).correctIndex ∈
      apply5050 [5, 1] { qd1 with correctIndex := 2 } ∧
    (∀ x ∈ apply5050 [5, 1] { qd1 with correctIndex := 2 }, x < 4) ∧
    (∃ x ∈ apply5050 [5, 1] { qd1 with correctIndex := 2 },
      x ≠ ({ qd1 with correctIndex := 2 } : Question).correctIndex) := by
  exact fiftyfifty_visibility [5, 1] { qd1 with correctIndex := 2 }
    (by decide)

/-- The last element of a list extended by one element. -/
theorem getLastD_append_single {α : Type} (l : List α) (a d : α) :
    (l ++ [a]).getLastD d = a := by
  simp [List.getLastD_eq_getLast?, List.getLast?_concat]

/-- Every polling step keeps the invariant that a completed question has
`result.remainingSecondsForCurrent = 0` (the auto-save zeroes it on every
completing break, QuizGame.cpp line 521). -/
theorem stepEvent_rem_inv (bank : List Question) (s : RunState) (ev : Event)
    (h : s.completed = true → s.remainingSaved = 0) :
    (stepEvent bank s ev).completed = true →
      (stepEvent bank s ev).remainingSaved = 0 := by
  cases ev <;>
    simp only [stepEvent, timeoutCheck, menuStep, postBreakSave, mkSave] <;>
    (repeat' split) <;> simp_all

/-- The `stepEvent_rem_inv` invariant holds along any polling trace. -/
theorem foldl_rem_inv (bank : List Question) :
    ∀ (evs : List Event) (s : RunState),
      (s.completed = true → s.remainingSaved = 0) →
      ((evs.foldl (stepEvent bank) s).completed = true →
        (evs.foldl (stepEvent bank) s).remainingSaved = 0) := by
  intro evs
  induction evs with
  | nil => intro s h; exact h
  | cons e rest ih =>
    intro s h
    exact ih _ (stepEvent_rem_inv bank s e h)

/-- A completed question run leaves `remainingSecondsForCurrent = 0` and
its final snapshot records 0 remaining seconds and the post-evaluation
score. -/
theorem runQuestion_completed_lastSave (bank : List Question) (s : RunState)
    (q : Question) (qIdx : Nat) (startNow : Int) (events : List Event)
    (h : (runQuestion bank s q qIdx startNow events).completed = true) :
    (runQuestion bank s q qIdx startNow events).remainingSaved = 0 ∧
    ((runQuestion bank s q qIdx startNow
        events).saves.getLastD default).remainingSecondsForCurrent = 0 ∧
    ((runQuestion bank s q qIdx startNow events).saves.getLastD
        default).score =
      (runQuestion bank s q qIdx startNow events).tally.score := by
  have hinv := foldl_rem_inv bank events (startQuestion s q qIdx startNow)
    (by simp [startQuestion])
  simp only [runQuestion] at h ⊢
  by_cases hc :
      (events.foldl (stepEvent bank)
        (startQuestion s q qIdx startNow)).completed = true
  · rw [if_pos hc] at h ⊢
    have h0 := hinv hc
    refine ⟨?_, ?_, ?_⟩ <;>
      simp [finishQuestion, mkSave, getLastD_append_single, h0]
  · rw [if_neg hc] at h
    exact absurd h hc

/-- An idle poll before the deadline changes nothing. -/
theorem stepEvent_idle_noop (bank : List Question) (s : RunState) (now : Int)
    (h : now < s.endTime) : stepEvent bank s (Event.idle now) = s := by
  by_cases hc : s.completed
  · simp [stepEvent, hc]
  · simp [stepEvent, hc, timeoutCheck, show ¬ (now ≥ s.endTime) by omega]

/-- A trace of idle polls, all before the deadline, changes nothing. -/
theorem foldl_idle_noop (bank : List Question) :
    ∀ (nows : List Int) (s : RunState), (∀ n ∈ nows, n < s.endTime) →
      (nows.map Event.idle).foldl (stepEvent bank) s = s := by
  intro nows
  induction nows with
  | nil => intro s _; rfl
  | cons n rest ih =>
    intro s h
    have h1 : stepEvent bank s (Event.idle n) = s :=
      stepEvent_idle_noop bank s n (h n (by simp))
    simp only [List.map_cons, List.foldl_cons, h1]
    exact ih s fun m hm => h m (by simp [hm])

/-- A question run whose trace never completes the question is just the
folded polling state (no evaluation, no final save). -/
theorem runQuestion_eq_of_not_completed (bank : List Question) (s : RunState)
    (q : Question) (qIdx : Nat) (startNow : Int) (events : List Event)
    (h : (events.foldl (stepEvent bank)
        (startQuestion s q qIdx startNow)).completed = false) :
    runQuestion bank s q qIdx startNow events =
      events.foldl (stepEvent bank) (startQuestion s q qIdx startNow) := by
  simp only [runQuestion, h, Bool.false_eq_true, if_false]

/-- C9 counterexample.  In the literal spec scenario — four questions
completed, question 5 entered at time 100 (deadline 110), the process
dying after an idle poll at time 104, i.e. with exactly 6 seconds
remaining and no lifeline-menu visit — the snapshot on disk does *not*
contain `remainingSecondsForCurrent = 6`: `saveProgress` runs only when
the inner loop breaks (lifeline use or completion), so the file still
holds the post-question-4 snapshot, whose remaining-seconds field is 0. -/
theorem snapshot_crash_cex :
    (crashedFifth.saves.getLastD default).remainingSecondsForCurrent = 0 ∧
    ¬ ((crashedFifth.saves.getLastD default).remainingSecondsForCurrent
        = 6) := by
  decide

/-- C9 amended.  If question 4 completes and the process dies
mid-question 5 after idle polls only (no lifeline-menu visit, every poll
before the deadline), then no snapshot is written during question 5: the
file on disk is the last snapshot of question 4, which records
`remainingSecondsForCurrent = 0` and — as the claim's second half says —
a score equal to the score accumulated through question 4. -/
theorem snapshot_crash_amended :
    ∀ (bank : List Question) (s : RunState) (q4 q5 : Question) (i4 i5 : Nat)
      (t4 t5 : Int) (evs4 : List Event) (nows : List Int),
      (runQuestion bank s q4 i4 t4 evs4).completed = true →
      (∀ n ∈ nows, n < t5 + DEFAULT_TIME_PER_QUESTION) →
      (runQuestion bank (runQuestion bank s q4 i4 t4 evs4) q5 i5 t5
          (nows.map Event.idle)).saves =
        (runQuestion bank s q4 i4 t4 evs4).saves ∧
      (runQuestion bank (runQuestion bank s q4 i4 t4 evs4) q5 i5 t5
          (nows.map Event.idle)).completed = false ∧
      ((runQuestion bank s q4 i4 t4 evs4).saves.getLastD
          default).remainingSecondsForCurrent = 0 ∧
      ((runQuestion bank s q4 i4 t4 evs4).saves.getLastD default).score =
        (runQuestion bank s q4 i4 t4 evs4).tally.score := by
  intro bank s q4 q5 i4 i5 t4 t5 evs4 nows h4 hn
  obtain ⟨hrem, hlast0, hlastsc⟩ :=
    runQuestion_completed_lastSave bank s q4 i4 t4 evs4 h4
  have hstart :
      (startQuestion (runQuestion bank s q4 i4 t4 evs4) q5 i5 t5).endTime =
        t5 + DEFAULT_TIME_PER_QUESTION := by
    simp [startQuestion, hrem]
  have hfold := foldl_idle_noop bank nows
    (startQuestion (runQuestion bank s q4 i4 t4 evs4) q5 i5 t5)
    (by rw [hstart]; exact hn)
  have hnc :
      ((nows.map Event.idle).foldl (stepEvent bank)
        (startQuestion (runQuestion bank s q4 i4 t4 evs4) q5 i5
          t5)).completed = false := by
    rw [hfold]; simp [startQuestion]
  have hrun5 := runQuestion_eq_of_not_completed bank
    (runQuestion bank s q4 i4 t4 evs4) q5 i5 t5 (nows.map Event.idle) hnc
  refine ⟨?_, ?_, hlast0, hlastsc⟩
  · rw [hrun5, hfold]
    rfl
  · rw [hrun5, hfold]
    rfl

/-- C9 amended witness: the amended statement evaluated on a concrete
one-question prefix followed by an idle-only question 5. -/
theorem snapshot_crash_amended_witness :
    (runQuestion [qd1] (runQuestion [qd1] (initState "P") qd1 0 0
        [Event.press '1' 2]) qd1 1 20 ([24].map Event.idle)).saves =
      (runQuestion [qd1] (initState "P") qd1 0 0
        [Event.press '1' 2]).saves ∧
    (runQuestion [qd1] (runQuestion [qd1] (initState "P") qd1 0 0
        [Event.press '1' 2]) qd1 1 20 ([24].map Event.idle)).completed =
      false ∧
    ((runQuestion [qd1] (initState "P") qd1 0 0
        [Event.press '1' 2]).saves.getLastD
        default).remainingSecondsForCurrent = 0 ∧
    ((runQuestion [qd1] (initState "P") qd1 0 0
        [Event.press '1' 2]).saves.getLastD default).score =
      (runQuestion [qd1] (initState "P") qd1 0 0
        [Event.press '1' 2]).tally.score := by
  exact snapshot_crash_amended [qd1] (initState "P") qd1 qd1 0 1 0 20
    [Event.press '1' 2] [24] (by decide) (by decide)

/-- Digit characters are digits. -/
theorem digitChar_isDigit (k : Nat) (h : k < 10) :
    isDigitCh (digitChar k) = true := by
  interval_cases k <;> decide

/-- The numeric value of a digit character. -/
theorem digitChar_val (k : Nat) (h : k < 10) :
    (digitChar k).toNat - 48 = k := by
  interval_cases k <;> decide

/-- The fuel argument of `natCharsCore` is irrelevant once sufficient. -/
theorem natCharsCore_fuel :
    ∀ (n f1 f2 : Nat) (acc : List Char), n < f1 → n < f2 →
      natCharsCore f1 n acc = natCharsCore f2 n acc := by
  intro n
  induction n using Nat.strong_induction_on with
  | _ n ih =>
    intro f1 f2 acc h1 h2
    obtain ⟨a, rfl⟩ : ∃ a, f1 = a + 1 :=
      ⟨f1 - 1, by omega⟩
    obtain ⟨b, rfl⟩ : ∃ b, f2 = b + 1 :=
      ⟨f2 - 1, by omega⟩
    by_cases hn : n < 10
    · simp [natCharsCore, hn]
    · simp only [natCharsCore, hn, if_false]
      exact ih (n / 10) (by omega) a b _ (by omega) (by omega)

/-- `natCharsCore` with exact fuel prepends `natChars n` to the
accumulator. -/
theorem natCharsCore_acc :
    ∀ (n : Nat) (acc : List Char),
      natCharsCore (n + 1) n acc = natChars n ++ acc := by
  intro n
  induction n using Nat.strong_induction_on with
  | _ n ih =>
    intro acc
    have hdef : natChars n = natCharsCore (n + 1) n [] := rfl
    have h1 : ∀ acc2 : List Char, natCharsCore (n + 1) n acc2 =
        if n < 10 then digitChar n :: acc2
        else natCharsCore n (n / 10) (digitChar (n % 10) :: acc2) :=
      fun _ => rfl
    rw [hdef, h1, h1]
    by_cases hn : n < 10
    · rw [if_pos hn, if_pos hn]
      rfl
    · rw [if_neg hn, if_neg hn,
        natCharsCore_fuel (n / 10) n (n / 10 + 1) _ (by omega) (by omega),
        natCharsCore_fuel (n / 10) n (n / 10 + 1) _ (by omega) (by omega),
        ih (n / 10) (by omega), ih (n / 10) (by omega)]
      simp

/-- The recursive characterisation of `natChars`. -/
theorem natChars_eq (n : Nat) :
    natChars n =
      if n < 10 then [digitChar n]
      else natChars (n / 10) ++ [digitChar (n % 10)] := by
  have hdef : natChars n = natCharsCore (n + 1) n [] := rfl
  have h1 : natCharsCore (n + 1) n [] =
      if n < 10 then digitChar n :: ([] : List Char)
      else natCharsCore n (n / 10) [digitChar (n % 10)] := rfl
  rw [hdef, h1]
  by_cases hn : n < 10
  · rw [if_pos hn, if_pos hn]
  · rw [if_neg hn, if_neg hn,
      natCharsCore_fuel (n / 10) n (n / 10 + 1) _ (by omega) (by omega),
      natCharsCore_acc (n / 10)]

/-- The decimal rendering of a natural number is non-empty and consists
of digit characters only. -/
theorem natChars_spec (n : Nat) :
    natChars n ≠ [] ∧ ∀ c ∈ natChars n, isDigitCh c = true := by
  induction n using Nat.strong_induction_on with
  | _ n ih =>
    rw [natChars_eq]
    split_ifs with h
    · refine ⟨by simp, ?_⟩
      intro c hc
      simp only [List.mem_singleton] at hc
      subst hc
      exact digitChar_isDigit n h
    · have hd : n / 10 < n := by omega
      obtain ⟨_, hdig⟩ := ih (n / 10) hd
      refine ⟨by simp, ?_⟩
      intro c hc
      rcases List.mem_append.mp hc with h1 | h1
      · exact hdig c h1
      · simp only [List.mem_singleton] at h1
        subst h1
        exact digitChar_isDigit (n % 10) (by omega)

/-- Folding one more digit into an accumulated value. -/
theorem natFromDigits_append (l : List Char) (c : Char) :
    natFromDigits (l ++ [c]) = natFromDigits l * 10 + (c.toNat - 48) := by
  simp [natFromDigits, List.foldl_append]

/-- Parsing the decimal rendering of a natural number recovers it. -/
theorem natFromDigits_natChars (n : Nat) :
    natFromDigits (natChars n) = n := by
  induction n using Nat.strong_induction_on with
  | _ n ih =>
    rw [natChars_eq]
    split_ifs with h
    · simp only [natFromDigits, List.foldl_cons, List.foldl_nil]
      rw [Nat.zero_mul, Nat.zero_add]
      exact digitChar_val n h
    · rw [natFromDigits_append, ih (n / 10) (by omega),
        digitChar_val (n % 10) (by omega)]
      omega

/-- A digit character is not whitespace. -/
theorem isDigitCh_not_space (c : Char) (h : isDigitCh c = true) :
    isSpaceCh c = false := by
  simp only [isDigitCh, Bool.and_eq_true, decide_eq_true_eq] at h
  simp only [isSpaceCh, Bool.or_eq_false_iff, decide_eq_false_iff_not]
  omega

/-- `takeWhile` keeps a list all of whose elements satisfy the test. -/
theorem takeWhile_all {p : Char → Bool} :
    ∀ l : List Char, (∀ c ∈ l, p c = true) → l.takeWhile p = l := by
  intro l h
  exact List.takeWhile_eq_self_iff.mpr h

/-- `stoi` on a non-empty all-digit string returns its value. -/
theorem stoiChars_digits (l : List Char) (hne : l ≠ [])
    (hdig : ∀ c ∈ l, isDigitCh c = true) :
    stoiChars l = some (natFromDigits l : Int) := by
  obtain ⟨c, rest, rfl⟩ := List.exists_cons_of_ne_nil hne
  have hc : isDigitCh c = true := hdig c (by simp)
  have hnspace : isSpaceCh c = false := isDigitCh_not_space c hc
  have hcm : ¬ (c = '-') := by
    intro h
    subst h
    exact absurd hc (by decide)
  have hcp : ¬ (c = '+') := by
    intro h
    subst h
    exact absurd hc (by decide)
  have htake : (c :: rest).takeWhile isDigitCh = c :: rest :=
    takeWhile_all _ hdig
  simp only [stoiChars, List.dropWhile_cons, hnspace, Bool.false_eq_true,
    if_false, hcm, hcp, htake]
  simp

/-- `stoi` recovers the `int` that `operator<<` printed. -/
theorem stoiChars_intChars (i : Int) : stoiChars (intChars i) = some i := by
  by_cases h : i < 0
  · obtain ⟨hne, hdig⟩ := natChars_spec i.natAbs
    have htake : (natChars i.natAbs).takeWhile isDigitCh = natChars i.natAbs :=
      takeWhile_all _ hdig
    have hdrop : List.dropWhile isSpaceCh ('-' :: natChars i.natAbs) =
        '-' :: natChars i.natAbs := by
      rw [List.dropWhile_cons, show isSpaceCh '-' = false from by decide]
      simp
    simp only [intChars, h, if_true]
    simp only [stoiChars, hdrop]
    rw [if_pos trivial, htake, if_neg hne, natFromDigits_natChars]
    congr 1
    omega
  · obtain ⟨hne, hdig⟩ := natChars_spec i.toNat
    simp only [intChars, h, if_false]
    rw [stoiChars_digits _ hne hdig, natFromDigits_natChars]
    congr 1
    omega

/-- Every character of a rendered `int` is `-` or a digit. -/
theorem intChars_mem (i : Int) (c : Char) (h : c ∈ intChars i) :
    c = '-' ∨ isDigitCh c = true := by
  simp only [intChars] at h
  split_ifs at h
  · rcases List.mem_cons.mp h with h1 | h1
    · exact Or.inl h1
    · exact Or.inr ((natChars_spec i.natAbs).2 c h1)
  · exact Or.inr ((natChars_spec i.toNat).2 c h)

/-- The separator `|` never occurs in a rendered `int`. -/
theorem bar_not_mem_intChars (i : Int) : '|' ∉ intChars i := by
  intro h
  rcases intChars_mem i '|' h with h1 | h1
  · exact absurd h1 (by decide)
  · exact absurd h1 (by decide)

/-- The newline character never occurs in a rendered `int`. -/
theorem newline_not_mem_intChars (i : Int) : '\x0a' ∉ intChars i := by
  intro h
  rcases intChars_mem i '\x0a' h with h1 | h1
  · exact absurd h1 (by decide)
  · exact absurd h1 (by decide)

/-- `findIdx` over an append whose first part has no match. -/
theorem findIdx_append_of_none (p : Char → Bool) :
    ∀ (xs ys : List Char), (∀ x ∈ xs, p x = false) →
      List.findIdx p (xs ++ ys) = xs.length + List.findIdx p ys := by
  intro xs
  induction xs with
  | nil => intro ys _; simp
  | cons x l ih =>
    intro ys h
    have hx : p x = false := h x (by simp)
    simp only [List.cons_append, List.findIdx_cons, hx, cond_false,
      List.length_cons]
    rw [ih ys fun a ha => h a (by simp [ha])]
    omega

/-- Parsing a rendered high-score line recovers the entry, provided the
name contains no `|`. -/
theorem parseScoreLine_renderEntry (e : ScoreEntry) (hname : '|' ∉ e.name) :
    parseScoreLine (renderEntry e) = some e := by
  obtain ⟨nm, sc, dt⟩ := e
  simp only at hname
  have hsplit : renderEntry ⟨nm, sc, dt⟩ =
      (nm ++ ['|']) ++ (intChars sc ++ '|' :: dt) := by
    simp [renderEntry]
  have hne : renderEntry ⟨nm, sc, dt⟩ ≠ [] := by
    rw [hsplit]
    simp
  have hp1 : (renderEntry ⟨nm, sc, dt⟩).findIdx (fun c => c == '|') =
      nm.length := by
    simp only [renderEntry]
    rw [show nm ++ '|' :: (intChars sc ++ '|' :: dt) =
        nm ++ ('|' :: (intChars sc ++ '|' :: dt)) from rfl]
    rw [findIdx_append_of_none _ nm _
      (fun a ha => by
        simp only [beq_eq_false_iff_ne, ne_eq]
        intro hc
        exact hname (hc ▸ ha))]
    simp [List.findIdx_cons]
  have hlen : (renderEntry ⟨nm, sc, dt⟩).length =
      nm.length + 1 + (intChars sc).length + 1 + dt.length := by
    simp [renderEntry]
    omega
  have hdrop : (renderEntry ⟨nm, sc, dt⟩).drop (nm.length + 1) =
      intChars sc ++ '|' :: dt := by
    rw [hsplit, show nm.length + 1 = (nm ++ ['|']).length by simp]
    exact List.drop_left _ _
  have htake : (renderEntry ⟨nm, sc, dt⟩).take nm.length = nm := by
    rw [hsplit, List.append_assoc]
    have := List.take_left nm (['|'] ++ (intChars sc ++ '|' :: dt))
    simp only at this
    exact this
  have hi2 : (intChars sc ++ '|' :: dt).findIdx (fun c => c == '|') =
      (intChars sc).length := by
    rw [findIdx_append_of_none _ (intChars sc) _
      (fun a ha => by
        simp only [beq_eq_false_iff_ne, ne_eq]
        intro hc
        exact bar_not_mem_intChars sc (hc ▸ ha))]
    simp [List.findIdx_cons]
  have htake2 : (intChars sc ++ '|' :: dt).take (intChars sc).length =
      intChars sc := by
    exact List.take_left (intChars sc) ('|' :: dt)
  have hdrop2 : (intChars sc ++ '|' :: dt).drop ((intChars sc).length + 1) =
      dt := by
    rw [show intChars sc ++ '|' :: dt = (intChars sc ++ ['|']) ++ dt by simp,
      show (intChars sc).length + 1 = (intChars sc ++ ['|']).length by simp]
    exact List.drop_left _ _
  simp only [parseScoreLine, List.isEmpty_eq_true, hne, if_false, hp1, hdrop,
    hi2, htake, htake2, hdrop2]
  rw [if_pos (by rw [hlen]; omega), if_pos (by simp)]
  rw [stoiChars_intChars]
  rfl

/-- `splitLinesAux` consumes one newline-terminated line at a time. -/
theorem splitLinesAux_line :
    ∀ (l cur rest : List Char), '\x0a' ∉ l →
      splitLinesAux cur (l ++ '\x0a' :: rest) =
        (cur ++ l) :: splitLinesAux [] rest := by
  intro l
  induction l with
  | nil =>
    intro cur rest _
    simp [splitLinesAux]
  | cons c l2 ih =>
    intro cur rest h
    have hc : ¬ (c = '\x0a') := fun hx => h (by simp [hx])
    simp only [List.cons_append, splitLinesAux, hc, if_false, List.append_eq]
    rw [ih (cur ++ [c]) rest (fun hx => h (by simp [hx]))]
    simp

/-- Splitting a stream of newline-terminated lines recovers the lines. -/
theorem splitLines_stream :
    ∀ ls : List (List Char), (∀ l ∈ ls, '\x0a' ∉ l) →
      splitLines ((ls.map (fun l => l ++ ['\x0a'])).flatten) = ls := by
  intro ls
  induction ls with
  | nil => intro _; rfl
  | cons l rest ih =>
    intro h
    simp only [List.map_cons, List.flatten_cons, splitLines]
    rw [show (l ++ ['\x0a']) ++ (rest.map (fun l => l ++ ['\x0a'])).flatten =
        l ++ '\x0a' :: (rest.map (fun l => l ++ ['\x0a'])).flatten by simp]
    rw [splitLinesAux_line l [] _ (h l (by simp))]
    rw [show ([] : List Char) ++ l = l from rfl]
    exact congrArg (l :: ·) (ih fun a ha => h a (by simp [ha]))

/-- `writeHighScore` iterated from an arbitrary file prefix. -/
theorem writeAll_append (es : List ScoreEntry) :
    ∀ f : List Char, writeAll f es = f ++ writeAll [] es := by
  induction es with
  | nil => intro f; simp [writeAll]
  | cons e rest ih =>
    intro f
    show writeAll (writeHighScore f e) rest = _
    rw [ih (writeHighScore f e)]
    have h2 : writeAll [] (e :: rest) = writeHighScore [] e ++ writeAll [] rest := by
      show writeAll (writeHighScore [] e) rest = _
      rw [ih (writeHighScore [] e)]
    rw [h2]
    simp [writeHighScore]

/-- The file written for a list of entries is the stream of their
newline-terminated rendered lines. -/
theorem writeAll_eq_stream (es : List ScoreEntry) :
    writeAll [] es =
      ((es.map renderEntry).map (fun l => l ++ ['\x0a'])).flatten := by
  induction es with
  | nil => rfl
  | cons e rest ih =>
    show writeAll (writeHighScore [] e) rest = _
    rw [writeAll_append rest (writeHighScore [] e), ih]
    simp [writeHighScore]

/-- Parsing the rendered lines of entries whose names contain no `|`
recovers the entries. -/
theorem filterMap_parse (es : List ScoreEntry)
    (h : ∀ e ∈ es, '|' ∉ e.name) :
    (es.map renderEntry).filterMap parseScoreLine = es := by
  induction es with
  | nil => rfl
  | cons e rest ih =>
    simp only [List.map_cons, List.filterMap_cons,
      parseScoreLine_renderEntry e (h e (by simp))]
    rw [ih fun a ha => h a (by simp [ha])]

/-- C4 counterexample.  The round trip fails as universally stated: a
name containing `|` shifts the field splits, so the single entry
`"a|b" / 5 / "d"` reads back as `"a" / 0 / "5|d"`. -/
theorem highscore_roundtrip_cex :
    readHighScores (writeHighScore [] eBad) ≠ [eBad] := by
  decide

/-- C4 amended.  For at most 50 entries (the reader keeps at most
`MAX_QUIZ_QUESTIONS = 50`) whose names contain no `|` and whose names and
datetimes contain no newline, writing them and reading the file back
yields the same entries in insertion order. -/
theorem highscore_roundtrip_amended :
    ∀ es : List ScoreEntry, es.length ≤ 50 →
      (∀ e ∈ es, '|' ∉ e.name ∧ '\x0a' ∉ e.name ∧ '\x0a' ∉ e.datetime) →
      readHighScores (writeAll [] es) = es := by
  intro es hlen h
  have hnl : ∀ l ∈ es.map renderEntry, '\x0a' ∉ l := by
    intro l hl
    obtain ⟨e, he, rfl⟩ := List.mem_map.mp hl
    obtain ⟨h1, h2, h3⟩ := h e he
    intro hmem
    simp only [renderEntry, List.mem_append, List.mem_cons] at hmem
    rcases hmem with hm | hm
    · exact h2 hm
    rcases hm with hm | hm
    · exact absurd hm (by decide)
    rcases hm with hm | hm
    · exact newline_not_mem_intChars e.score hm
    rcases hm with hm | hm
    · exact absurd hm (by decide)
    · exact h3 hm
  unfold readHighScores
  rw [writeAll_eq_stream, splitLines_stream _ hnl,
    filterMap_parse es fun e he => (h e he).1,
    List.take_of_length_le hlen]

/-- C4 amended witness: a two-entry round trip, one entry with a negative
score and a `|` inside the datetime, one with empty name and datetime. -/
theorem highscore_roundtrip_amended_witness :
    readHighScores (writeAll []
        [{ name := ['a'], score := -5, datetime := ['x', '|', 'y'] },
         { name := [], score := 123, datetime := [] }]) =
      [{ name := ['a'], score := -5, datetime := ['x', '|', 'y'] },
       { name := [], score := 123, datetime := [] }] :=
  highscore_roundtrip_amended _ (by decide) (by decide)

/-- C10.  Selecting Resume with a loadable snapshot never starts a quiz:
the menu iteration prints the saved player name, score and remaining
seconds, prompts for a category, and returns to the menu with no session
launched (and hence no saved state injected into any session — a launch
only happens through the Start branch, which begins from `initState`). -/
theorem resume_never_launches :
    ∀ (r : SaveFile) (cat : Nat),
      mainStep (MenuChoice.resumeChoice (some r) cat) =
        { launchedQuiz := none, printedName := some r.playerName,
          printedScore := some r.score,
          printedRemaining := some r.remainingSecondsForCurrent,
          promptedCategory := true, returnsToMenu := true } :=
  fun _ _ => rfl

end QuizGame
